import Mathlib

/-!
# Verification of `train_classifier.py` (disaster-response-pipeline-project)

Shallow embedding of the training script
`disaster_response_pipeline_project/models/train_classifier.py` and proofs of
the specification's testable properties.

Text is modelled as a list of Unicode code points (`Text := List Nat`);
the ASCII fragment of Python's `\w` / `\s` character classes and `str.lower`
is embedded explicitly.  The WordNet lemmatizer is external library code and
is modelled as an abstract parameter `lem : Text → Text`; theorems that
depend on its behaviour state the needed properties as hypotheses.
-/

/-- A string as a list of Unicode code points. -/
abbrev Text := List Nat

/-- Python regex `\w` (word character), ASCII fragment: letters, digits, underscore. -/
def isWordChar (c : Nat) : Bool :=
  (48 ≤ c && c ≤ 57) || (65 ≤ c && c ≤ 90) || (97 ≤ c && c ≤ 122) || (c == 95)

/-- Python regex `\s` (whitespace), ASCII fragment: space, tab, LF, VT, FF, CR. -/
def isSpaceChar (c : Nat) : Bool :=
  (c == 32) || (c == 9) || (c == 10) || (c == 11) || (c == 12) || (c == 13)

/-- A punctuation character: neither a word character nor whitespace
(exactly the class removed by `re.sub(r'[^\w\s]','',text)`). -/
def isPunctChar (c : Nat) : Bool :=
  !(isWordChar c) && !(isSpaceChar c)

/-- An uppercase (ASCII) letter. -/
def isUpperChar (c : Nat) : Bool :=
  65 ≤ c && c ≤ 90

/-- Python `str.lower`, ASCII fragment: map A-Z to a-z, leave the rest. -/
def pyToLower (c : Nat) : Nat :=
  if 65 ≤ c ∧ c ≤ 90 then c + 32 else c

/-- `re.sub(r'[^\w\s]','',text)`: delete every character that is neither a
word character nor whitespace. -/
def subNonWordSpace (s : Text) : Text :=
  List.filter (fun c => isWordChar c || isSpaceChar c) s

/-- Raw whitespace split: cut the text at every whitespace character, keeping
empty fragments (always returns at least one fragment). -/
def splitRaw : List Nat → List (List Nat)
  | [] => [[]]
  | c :: cs =>
    if isSpaceChar c then [] :: splitRaw cs
    else
      match splitRaw cs with
      | [] => [[c]]
      | w :: ws => (c :: w) :: ws

/-- `nltk.word_tokenize`, modelled on punctuation-free text: split the text
into maximal whitespace-free words (the Punkt/Treebank tokenizer reduces to
whitespace splitting once `re.sub` has removed all punctuation). -/
def wordTokenize (s : Text) : List Text :=
  List.filter (fun w => decide (w ≠ [])) (splitRaw s)

/-- Python `str.lower` lifted to a word. -/
def lowerWord (w : Text) : Text :=
  List.map pyToLower w

/-- Python `str.strip`: drop leading and trailing whitespace. -/
def stripWord (w : Text) : Text :=
  List.reverse (List.dropWhile isSpaceChar (List.reverse (List.dropWhile isSpaceChar w)))

/-- Body of the `for tok in tokens` loop:
`lemmatizer.lemmatize(tok).lower().strip()`. -/
def cleanToken (lem : Text → Text) (tok : Text) : Text :=
  stripWord (lowerWord (lem tok))

/-- `tokenize(text)` from `train_classifier.py`, parameterized by the
lemmatizer: strip non-word/non-space characters, word-tokenize, then
lemmatize, lowercase and strip each token. -/
def tokenize (lem : Text → Text) (text : Text) : List Text :=
  List.map (cleanToken lem) (wordTokenize (subNonWordSpace text))

/-- The tokenizer as the specification words it, stage by stage:
(a) strip all non-word/non-space characters, (b) split into words,
(c) lemmatize each word, (d) lowercase each word, (e) strip surrounding
whitespace from each word. -/
def tokenizeSpecOrder (lem : Text → Text) (text : Text) : List Text :=
  List.map stripWord
    (List.map lowerWord
      (List.map lem
        (wordTokenize (subNonWordSpace text))))

/-- Python `' '.join(tokens)`. -/
def joinSpace : List Text → Text
  | [] => []
  | [t] => t
  | t :: ts => t ++ (32 :: joinSpace ts)

example : tokenize id [72, 101, 108, 108, 111, 44, 32, 87, 111, 114, 108, 100, 33]
    = [[104, 101, 108, 108, 111], [119, 111, 114, 108, 100]] := by decide

example : tokenize id [] = [] := by decide

example : tokenize id [33, 63, 32, 46] = [] := by decide

/-! ## The data model: pandas DataFrames -/

/-- A cell of the messages table: either a text value (e.g. the `message`
column) or an integer value (e.g. the one-hot category columns). -/
inductive Cell where
  | s : Text → Cell
  | i : Int → Cell
deriving DecidableEq, Repr

/-- A pandas DataFrame: a list of column names and a list of rows, each row
holding one cell per column. -/
structure DataFrame where
  colNames : List String
  rows : List (List Cell)
deriving DecidableEq, Repr

/-- `df.iloc[:, a:b]`: positional column slice (Python half-open slice
semantics, clamped at the frame's width). -/
def DataFrame.ilocCols (df : DataFrame) (a b : Nat) : DataFrame :=
  { colNames := List.take (b - a) (List.drop a df.colNames),
    rows := List.map (fun r => List.take (b - a) (List.drop a r)) df.rows }

/-- `df[name]`: the values of the (first) column labelled `name`;
`none` when no column has that label (pandas raises `KeyError`). -/
def DataFrame.col (df : DataFrame) (name : String) : Option (List Cell) :=
  match List.indexOf? name df.colNames with
  | none => none
  | some j => some (List.map (fun r => List.getD r j (Cell.i 0)) df.rows)

/-- `Series.replace(2, 1)` applied to one cell. -/
def replaceTwoOne (c : Cell) : Cell :=
  if c = Cell.i 2 then Cell.i 1 else c

/-- `y['related'].replace(2, 1, inplace=True)`: replace the value 2 by 1
everywhere in the column labelled `related`; `none` when the label is absent
(pandas raises `KeyError`). -/
def replaceRelated (df : DataFrame) : Option DataFrame :=
  match List.indexOf? "related" df.colNames with
  | none => none
  | some j =>
    some { df with
      rows := List.map
        (fun r => List.set r j (replaceTwoOne (List.getD r j (Cell.i 0)))) df.rows }

/-- `load_data` from `train_classifier.py`, with the table read from the
SQLite database (`select * from messages`) as input:
`X = df['message']`, `y = df.iloc[:, 4:39]`,
`y['related'].replace(2, 1, inplace=True)`,
`category_names = y.columns.tolist()`; returns `(X, y, category_names)`.
`none` models the uncaught `KeyError` when a label is missing. -/
def load_data (df : DataFrame) : Option (List Cell × DataFrame × List String) :=
  match df.col "message" with
  | none => none
  | some X =>
    match replaceRelated (df.ilocCols 4 39) with
    | none => none
    | some y => some (X, y, y.colNames)

/-! ## The model builder: hyperparameter grid -/

/-- One candidate hyperparameter combination of the grid search:
`vect__ngram_range`, `vect__max_df`, `tfidf__use_idf`. -/
structure ParamComb where
  ngramRange : Nat × Nat
  maxDf : ℚ
  useIdf : Bool
deriving DecidableEq, Repr

/-- `'vect__ngram_range': ((1, 1), (1, 2))`. -/
def ngramRangeValues : List (Nat × Nat) := [(1, 1), (1, 2)]

/-- `'vect__max_df': (0.1, 0.5, 0.75)`. -/
def maxDfValues : List ℚ := [1/10, 1/2, 3/4]

/-- `'tfidf__use_idf': (True, False)`. -/
def useIdfValues : List Bool := [true, false]

/-- The grid-search estimator returned by `build_model`: the candidate list
that `GridSearchCV` enumerates from the `parameters` dict (its cartesian
product), together with the configured options. -/
structure GridSearchModel where
  paramCandidates : List ParamComb
  verbose : Nat
  nJobs : Int
deriving Repr

/-- `build_model` from `train_classifier.py`: pipeline of CountVectorizer →
TfidfTransformer → MultiOutputClassifier(AdaBoost), wrapped in
`GridSearchCV(pipeline, param_grid=parameters, verbose=2, n_jobs=-1)`;
the candidate list is the cartesian product of the three parameter ranges. -/
def build_model : GridSearchModel :=
  { paramCandidates :=
      ngramRangeValues.flatMap (fun ng =>
        maxDfValues.flatMap (fun df =>
          List.map (fun idf => ParamComb.mk ng df idf) useIdfValues)),
    verbose := 2,
    nJobs := -1 }

/-! ## The evaluator -/

/-- Number of indices where the test column has label `a` and the predicted
column has label `b` (columns are aligned positionally). -/
def countPairs (yt yp : List Int) (a b : Int) : Nat :=
  List.count (a, b) (List.zip yt yp)

/-- `sklearn.metrics.precision_score` with the default binary average and
positive class 1: `tp / (tp + fp)`, and 0 on an empty denominator (the
library's zero-division default). -/
def precision_score (yt yp : List Int) : ℚ :=
  let tp := countPairs yt yp 1 1
  let fp := countPairs yt yp 0 1
  if tp + fp = 0 then 0 else (tp : ℚ) / ((tp : ℚ) + (fp : ℚ))

/-- `sklearn.metrics.recall_score` (binary, positive class 1):
`tp / (tp + fn)`, and 0 on an empty denominator. -/
def recall_score (yt yp : List Int) : ℚ :=
  let tp := countPairs yt yp 1 1
  let fn := countPairs yt yp 1 0
  if tp + fn = 0 then 0 else (tp : ℚ) / ((tp : ℚ) + (fn : ℚ))

/-- `sklearn.metrics.f1_score` (binary, positive class 1):
`2·tp / (2·tp + fp + fn)`, and 0 on an empty denominator. -/
def f1_score (yt yp : List Int) : ℚ :=
  let tp := countPairs yt yp 1 1
  let fp := countPairs yt yp 0 1
  let fn := countPairs yt yp 1 0
  if 2 * tp + fp + fn = 0 then 0
  else (2 * tp : ℚ) / ((2 * tp : ℚ) + (fp : ℚ) + (fn : ℚ))

/-- A label frame by columns: `Y_test`, and `y_pred_df`, as association
lists from column name to integer column. -/
structure IntFrame where
  cols : List (String × List Int)
deriving DecidableEq, Repr

/-- Column lookup by name (first match); `[]` when absent. -/
def IntFrame.col (f : IntFrame) (name : String) : List Int :=
  match List.find? (fun c => c.1 == name) f.cols with
  | some c => c.2
  | none => []

/-- `pd.DataFrame(y_pred, columns=category_names)`: column `j` of the frame,
labelled `category_names[j]`, is the `j`-th entry of every predicted row. -/
def predFrame (yPred : List (List Int)) (categoryNames : List String) : IntFrame :=
  { cols := List.map
      (fun p => (p.2, List.map (fun r => List.getD r p.1 0) yPred))
      (List.enum categoryNames) }

/-- `evaluate_model` from `train_classifier.py`, with the fitted model
abstracted to its `predict` function.  The first component is the function's
return value (`None`: the table is printed, not returned); the second is the
printed table: for every column of `Y_test`, in order, the list
`[precision, recall, f1]` of that test column against the equally-named
predicted column. -/
def evaluate_model (predict : List Cell → List (List Int))
    (Xtest : List Cell) (Ytest : IntFrame) (categoryNames : List String) :
    Unit × List (String × List ℚ) :=
  let yPredDf := predFrame (predict Xtest) categoryNames
  ((),
    List.map
      (fun c =>
        (c.1,
          [precision_score c.2 (yPredDf.col c.1),
           recall_score c.2 (yPredDf.col c.1),
           f1_score c.2 (yPredDf.col c.1)]))
      Ytest.cols)

/-! ## The command-line entry point -/

/-- The externally visible actions of `main`, in order. -/
inductive MainEvent where
  | loadData
  | buildModel
  | trainModel
  | evaluateModel
  | saveModel
  | printUsage
deriving DecidableEq, Repr

/-- The sequence of actions `main` performs for a given `sys.argv`
(`argv` includes the script name, so two positional arguments mean
`argv.length = 3`). -/
def mainTrace (argv : List String) : List MainEvent :=
  if argv.length = 3 then
    [MainEvent.loadData, MainEvent.buildModel, MainEvent.trainModel,
     MainEvent.evaluateModel, MainEvent.saveModel]
  else
    [MainEvent.printUsage]

/-- The process exit code of `main`: the script never calls `sys.exit` or
raises in the argument-count check, so the usage path exits with code 0. -/
def mainExitCode (_argv : List String) : Nat := 0

/-! ## Character-level lemmas -/

theorem isUpperChar_pyToLower (c : Nat) : isUpperChar (pyToLower c) = false := by
  simp only [isUpperChar, pyToLower]
  split <;> simp <;> omega

theorem isWordChar_pyToLower {c : Nat} (h : isWordChar c = true) :
    isWordChar (pyToLower c) = true := by
  simp only [isWordChar, pyToLower] at *
  split <;> (simp_all; try omega)

theorem isSpaceChar_eq_false_of_isWordChar {c : Nat} (h : isWordChar c = true) :
    isSpaceChar c = false := by
  simp only [isWordChar, isSpaceChar] at *
  simp_all
  omega

theorem isPunctChar_eq_false_of_isWordChar {c : Nat} (h : isWordChar c = true) :
    isPunctChar c = false := by
  simp [isPunctChar, h]

theorem isWordChar_of_kept {c : Nat} (h : (isWordChar c || isSpaceChar c) = true)
    (h2 : isSpaceChar c = false) : isWordChar c = true := by
  simp_all

/-! ## `splitRaw` and `wordTokenize` lemmas -/

theorem splitRaw_ne_nil (s : List Nat) : splitRaw s ≠ [] := by
  cases s with
  | nil => simp [splitRaw]
  | cons c cs =>
    simp only [splitRaw]
    split
    · simp
    · cases h : splitRaw cs <;> simp

theorem mem_splitRaw {s : List Nat} {w : List Nat} (hw : w ∈ splitRaw s) :
    ∀ c ∈ w, c ∈ s ∧ isSpaceChar c = false := by
  induction s generalizing w with
  | nil =>
    simp only [splitRaw, List.mem_singleton] at hw
    subst hw; simp
  | cons a as ih =>
    simp only [splitRaw] at hw
    by_cases ha : isSpaceChar a = true
    · rw [if_pos ha] at hw
      rcases List.mem_cons.mp hw with h | h
      · subst h; simp
      · intro c hc
        rcases ih h c hc with ⟨h1, h2⟩
        exact ⟨List.mem_cons_of_mem _ h1, h2⟩
    · rw [if_neg ha] at hw
      rcases hsp : splitRaw as with _ | ⟨w0, ws⟩
      · exact absurd hsp (splitRaw_ne_nil as)
      · rw [hsp] at hw
        rcases List.mem_cons.mp hw with h | h
        · subst h
          intro c hc
          rcases List.mem_cons.mp hc with h | h
          · subst h
            exact ⟨List.mem_cons_self _ _, Bool.not_eq_true _ ▸ ha⟩
          · have hw0 : w0 ∈ splitRaw as := by rw [hsp]; exact List.mem_cons_self _ _
            rcases ih hw0 c h with ⟨h1, h2⟩
            exact ⟨List.mem_cons_of_mem _ h1, h2⟩
        · have hmem : w ∈ splitRaw as := by rw [hsp]; exact List.mem_cons_of_mem _ h
          intro c hc
          rcases ih hmem c hc with ⟨h1, h2⟩
          exact ⟨List.mem_cons_of_mem _ h1, h2⟩

theorem mem_wordTokenize {s : List Nat} {w : List Nat} (hw : w ∈ wordTokenize s) :
    w ≠ [] ∧ ∀ c ∈ w, c ∈ s ∧ isSpaceChar c = false := by
  rcases List.mem_filter.mp hw with ⟨h1, h2⟩
  exact ⟨by simpa using h2, mem_splitRaw h1⟩

theorem splitRaw_cons_of_not_space {c : Nat} (hc : isSpaceChar c = false) {s : List Nat}
    {w : List Nat} {ws : List (List Nat)} (hs : splitRaw s = w :: ws) :
    splitRaw (c :: s) = (c :: w) :: ws := by
  simp only [splitRaw, hc, Bool.false_eq_true, if_false, hs]

theorem splitRaw_append_word {t s : List Nat} (ht : ∀ c ∈ t, isSpaceChar c = false)
    {w : List Nat} {ws : List (List Nat)} (hs : splitRaw s = w :: ws) :
    splitRaw (t ++ s) = (t ++ w) :: ws := by
  induction t with
  | nil => simpa using hs
  | cons a t ih =>
    have ha : isSpaceChar a = false := ht a (List.mem_cons_self _ _)
    have ht' : ∀ c ∈ t, isSpaceChar c = false := fun c hc => ht c (List.mem_cons_of_mem _ hc)
    rw [List.cons_append, splitRaw_cons_of_not_space ha (ih ht'), List.cons_append]

theorem splitRaw_space_cons {c : Nat} (hc : isSpaceChar c = true) (s : List Nat) :
    splitRaw (c :: s) = [] :: splitRaw s := by
  simp [splitRaw, hc]

theorem wordTokenize_joinSpace {ts : List Text}
    (h : ∀ t ∈ ts, t ≠ [] ∧ ∀ c ∈ t, isSpaceChar c = false) :
    wordTokenize (joinSpace ts) = ts := by
  induction ts with
  | nil => simp [joinSpace, wordTokenize, splitRaw]
  | cons t ts ih =>
    cases ts with
    | nil =>
      rcases h t (List.mem_cons_self _ _) with ⟨hne, hsp⟩
      have hsr : splitRaw (t ++ []) = (t ++ []) :: [] :=
        splitRaw_append_word hsp (s := []) (by rfl)
      rw [List.append_nil] at hsr
      show wordTokenize (joinSpace [t]) = [t]
      simp only [joinSpace]
      rw [wordTokenize, hsr]
      simp [hne]
    | cons t' ts' =>
      rcases h t (List.mem_cons_self _ _) with ⟨hne, hsp⟩
      have hrest : ∀ u ∈ t' :: ts', u ≠ [] ∧ ∀ c ∈ u, isSpaceChar c = false :=
        fun u hu => h u (List.mem_cons_of_mem _ hu)
      have hsplit : splitRaw (32 :: joinSpace (t' :: ts')) = [] :: splitRaw (joinSpace (t' :: ts')) :=
        splitRaw_space_cons (by decide) _
      have : splitRaw (joinSpace (t :: t' :: ts'))
          = (t ++ []) :: splitRaw (joinSpace (t' :: ts')) := by
        simpa [joinSpace] using splitRaw_append_word hsp hsplit
      rw [wordTokenize, this]
      simp only [List.append_nil, List.filter_cons]
      rw [if_pos (by simpa using hne)]
      have := ih hrest
      rw [wordTokenize] at this
      rw [this]

/-! ## `subNonWordSpace`, `stripWord`, and token lemmas -/

theorem mem_subNonWordSpace {s : Text} {c : Nat} (h : c ∈ subNonWordSpace s) :
    c ∈ s ∧ (isWordChar c || isSpaceChar c) = true :=
  List.mem_filter.mp h

theorem subNonWordSpace_eq_self {s : Text}
    (h : ∀ c ∈ s, (isWordChar c || isSpaceChar c) = true) :
    subNonWordSpace s = s :=
  List.filter_eq_self.mpr h

theorem dropWhile_eq_self_of_forall {p : Nat → Bool} {w : List Nat}
    (h : ∀ c ∈ w, p c = false) : List.dropWhile p w = w := by
  cases w with
  | nil => rfl
  | cons a w =>
    rw [List.dropWhile_cons, if_neg]
    simp [h a (List.mem_cons_self _ _)]

theorem stripWord_eq_self {w : Text} (h : ∀ c ∈ w, isSpaceChar c = false) :
    stripWord w = w := by
  rw [stripWord, dropWhile_eq_self_of_forall h,
      dropWhile_eq_self_of_forall (by simpa using fun c hc => h c hc),
      List.reverse_reverse]

theorem mem_stripWord {w : Text} {c : Nat} (h : c ∈ stripWord w) : c ∈ w := by
  rw [stripWord] at h
  rw [List.mem_reverse] at h
  have h1 := (List.dropWhile_sublist _).subset h
  rw [List.mem_reverse] at h1
  exact (List.dropWhile_sublist _).subset h1

theorem mem_lowerWord {w : Text} {c : Nat} (h : c ∈ lowerWord w) :
    ∃ d ∈ w, c = pyToLower d := by
  rcases List.mem_map.mp h with ⟨d, hd, hc⟩
  exact ⟨d, hd, hc.symm⟩

/-- Every token produced by `tokenize` on a lemmatizer that preserves
word-character-only words is nonempty and made of word characters only. -/
theorem tokenize_tokens_wordlike {lem : Text → Text}
    (hlem : ∀ w : Text, w ≠ [] → (∀ c ∈ w, isWordChar c = true) →
      lem w ≠ [] ∧ ∀ c ∈ lem w, isWordChar c = true)
    {s : Text} {t : Text} (ht : t ∈ tokenize lem s) :
    t ≠ [] ∧ ∀ c ∈ t, isWordChar c = true := by
  rcases List.mem_map.mp ht with ⟨w, hw, hclean⟩
  rcases mem_wordTokenize hw with ⟨hne, hchars⟩
  have hword : ∀ c ∈ w, isWordChar c = true := by
    intro c hc
    rcases hchars c hc with ⟨hmem, hsp⟩
    exact isWordChar_of_kept (mem_subNonWordSpace hmem).2 hsp
  rcases hlem w hne hword with ⟨hlne, hlword⟩
  have hlowword : ∀ c ∈ lowerWord (lem w), isWordChar c = true := by
    intro c hc
    rcases mem_lowerWord hc with ⟨d, hd, rfl⟩
    exact isWordChar_pyToLower (hlword d hd)
  have hlownospace : ∀ c ∈ lowerWord (lem w), isSpaceChar c = false :=
    fun c hc => isSpaceChar_eq_false_of_isWordChar (hlowword c hc)
  have hstrip : stripWord (lowerWord (lem w)) = lowerWord (lem w) :=
    stripWord_eq_self hlownospace
  subst hclean
  rw [cleanToken, hstrip]
  refine ⟨?_, hlowword⟩
  simpa [lowerWord] using hlne

theorem mem_joinSpace {ts : List Text} {c : Nat} (h : c ∈ joinSpace ts) :
    c = 32 ∨ ∃ t ∈ ts, c ∈ t := by
  induction ts with
  | nil => simp [joinSpace] at h
  | cons t ts ih =>
    cases ts with
    | nil =>
      right
      exact ⟨t, List.mem_cons_self _ _, by simpa [joinSpace] using h⟩
    | cons t' ts' =>
      simp only [joinSpace] at h
      rcases List.mem_append.mp h with h | h
      · exact Or.inr ⟨t, List.mem_cons_self _ _, h⟩
      · rcases List.mem_cons.mp h with h | h
        · exact Or.inl h
        · rcases ih h with h | ⟨u, hu, hc⟩
          · exact Or.inl h
          · exact Or.inr ⟨u, List.mem_cons_of_mem _ hu, hc⟩

theorem map_eq_self_of {α : Type} {f : α → α} {l : List α} (h : ∀ x ∈ l, f x = x) :
    List.map f l = l := by
  induction l with
  | nil => rfl
  | cons a l ih =>
    rw [List.map_cons, h a (List.mem_cons_self _ _),
        ih (fun x hx => h x (List.mem_cons_of_mem _ hx))]

/-- Under a lemmatizer that preserves nonempty word-character-only words and is
(up to lowercasing) idempotent on them, every token `tokenize` produces is a
fixed point of the per-token cleaning step. -/
theorem cleanToken_tokenize_fixed {lem : Text → Text}
    (hlem : ∀ w : Text, w ≠ [] → (∀ c ∈ w, isWordChar c = true) →
      lem w ≠ [] ∧ ∀ c ∈ lem w, isWordChar c = true)
    (hlem2 : ∀ w : Text, w ≠ [] → (∀ c ∈ w, isWordChar c = true) →
      lowerWord (lem (lowerWord (lem w))) = lowerWord (lem w))
    {s : Text} {t : Text} (ht : t ∈ tokenize lem s) :
    cleanToken lem t = t := by
  have htprops := tokenize_tokens_wordlike hlem ht
  rcases List.mem_map.mp ht with ⟨w, hw, rfl⟩
  rcases mem_wordTokenize hw with ⟨hwne, hwchars⟩
  have hword : ∀ c ∈ w, isWordChar c = true := by
    intro c hc
    rcases hwchars c hc with ⟨hmem, hsp⟩
    exact isWordChar_of_kept (mem_subNonWordSpace hmem).2 hsp
  rcases hlem w hwne hword with ⟨hlne, hlword⟩
  have hstrip : stripWord (lowerWord (lem w)) = lowerWord (lem w) :=
    stripWord_eq_self (fun c hc => by
      rcases mem_lowerWord hc with ⟨d, hd, rfl⟩
      exact isSpaceChar_eq_false_of_isWordChar (isWordChar_pyToLower (hlword d hd)))
  have ht' : cleanToken lem w = lowerWord (lem w) := by rw [cleanToken, hstrip]
  rw [ht'] at htprops ⊢
  rcases htprops with ⟨htne, htword⟩
  rcases hlem _ htne htword with ⟨hl2ne, hl2word⟩
  have hstrip2 : stripWord (lowerWord (lem (lowerWord (lem w)))) =
      lowerWord (lem (lowerWord (lem w))) :=
    stripWord_eq_self (fun c hc => by
      rcases mem_lowerWord hc with ⟨d, hd, rfl⟩
      exact isSpaceChar_eq_false_of_isWordChar (isWordChar_pyToLower (hl2word d hd)))
  rw [cleanToken, hstrip2]
  exact hlem2 w hwne hword

/-! ## Claim theorems: the tokenizer -/

/-- C2: every token returned by `tokenize` contains no punctuation character
and no uppercase character, and `tokenize` equals the step-by-step pipeline
in the specification's order (strip non-word/non-space characters, split into
words, then lemmatize, lowercase and strip each word).  The lemmatizer is
assumed to map word-character-only words to word-character-only words. -/
theorem tokenize_clean_and_ordered (lem : Text → Text)
    (hlem : ∀ w : Text, (∀ c ∈ w, isWordChar c = true) →
      ∀ c ∈ lem w, isWordChar c = true)
    (s : Text) :
    (∀ t ∈ tokenize lem s, ∀ c ∈ t, isPunctChar c = false ∧ isUpperChar c = false) ∧
    tokenize lem s = tokenizeSpecOrder lem s := by
  constructor
  · intro t ht c hc
    rcases List.mem_map.mp ht with ⟨w, hw, rfl⟩
    rcases mem_wordTokenize hw with ⟨hwne, hwchars⟩
    have hword : ∀ d ∈ w, isWordChar d = true := by
      intro d hd
      rcases hwchars d hd with ⟨hmem, hsp⟩
      exact isWordChar_of_kept (mem_subNonWordSpace hmem).2 hsp
    have hc' : c ∈ lowerWord (lem w) := mem_stripWord hc
    rcases mem_lowerWord hc' with ⟨d, hd, rfl⟩
    refine ⟨isPunctChar_eq_false_of_isWordChar
      (isWordChar_pyToLower (hlem w hword d hd)), isUpperChar_pyToLower d⟩
  · simp [tokenize, tokenizeSpecOrder, cleanToken, List.map_map, Function.comp]

/-- Witness for C2 at the identity lemmatizer and the text `"Hi, U_2!"`:
the first character of the first token is neither punctuation nor uppercase,
and the two pipeline orderings agree. -/
theorem tokenize_clean_and_ordered_witness :
    isPunctChar 104 = false ∧ isUpperChar 104 = false ∧
    tokenize id [72, 105, 44, 32, 85, 95, 50, 33]
      = tokenizeSpecOrder id [72, 105, 44, 32, 85, 95, 50, 33] :=
  have h := tokenize_clean_and_ordered id (fun _ h => h) [72, 105, 44, 32, 85, 95, 50, 33]
  ⟨(h.1 [104, 105] (by decide) 104 (by decide)).1,
   (h.1 [104, 105] (by decide) 104 (by decide)).2, h.2⟩

/-- C3: tokenization is idempotent — tokenizing the space-joined output of
`tokenize` returns the same token sequence.  The lemmatizer is assumed to
preserve nonempty word-character-only words and, modulo the subsequent
lowercasing, to be idempotent on them. -/
theorem tokenize_idempotent (lem : Text → Text)
    (hlem : ∀ w : Text, w ≠ [] → (∀ c ∈ w, isWordChar c = true) →
      lem w ≠ [] ∧ ∀ c ∈ lem w, isWordChar c = true)
    (hlem2 : ∀ w : Text, w ≠ [] → (∀ c ∈ w, isWordChar c = true) →
      lowerWord (lem (lowerWord (lem w))) = lowerWord (lem w))
    (s : Text) :
    tokenize lem (joinSpace (tokenize lem s)) = tokenize lem s := by
  have hts : ∀ t ∈ tokenize lem s, t ≠ [] ∧ ∀ c ∈ t, isWordChar c = true :=
    fun t ht => tokenize_tokens_wordlike hlem ht
  have hsub : subNonWordSpace (joinSpace (tokenize lem s))
      = joinSpace (tokenize lem s) := by
    apply subNonWordSpace_eq_self
    intro c hc
    rcases mem_joinSpace hc with rfl | ⟨t, ht, hct⟩
    · decide
    · simp [(hts t ht).2 c hct]
  have hsplit : wordTokenize (joinSpace (tokenize lem s)) = tokenize lem s :=
    wordTokenize_joinSpace (fun t ht =>
      ⟨(hts t ht).1,
       fun c hc => isSpaceChar_eq_false_of_isWordChar ((hts t ht).2 c hc)⟩)
  show List.map (cleanToken lem) (wordTokenize (subNonWordSpace _)) = tokenize lem s
  rw [hsub, hsplit]
  exact map_eq_self_of (fun t ht => cleanToken_tokenize_fixed hlem hlem2 ht)

/-- Witness for C3 at the identity lemmatizer and the text `"Ab cd!"`. -/
theorem tokenize_idempotent_witness :
    tokenize id (joinSpace (tokenize id [65, 98, 32, 99, 100, 33]))
      = tokenize id [65, 98, 32, 99, 100, 33] :=
  tokenize_idempotent id
    (fun _ hne h => ⟨hne, h⟩)
    (fun w _ _ => by
      show lowerWord (lowerWord w) = lowerWord w
      rw [lowerWord, lowerWord, List.map_map]
      refine List.map_congr_left (fun c _ => ?_)
      show pyToLower (pyToLower c) = pyToLower c
      rw [pyToLower, pyToLower]
      split <;> (try split) <;> omega)
    [65, 98, 32, 99, 100, 33]

/-- C9: on an input containing no word character (in particular the empty
string, or one made only of punctuation and whitespace), `tokenize` returns
the empty token sequence. -/
theorem tokenize_eq_nil_of_no_word_char (lem : Text → Text) (s : Text)
    (h : ∀ c ∈ s, isWordChar c = false) : tokenize lem s = [] := by
  have hsub : ∀ c ∈ subNonWordSpace s, isSpaceChar c = true := by
    intro c hc
    rcases mem_subNonWordSpace hc with ⟨hmem, hk⟩
    have hw := h c hmem
    rw [hw] at hk
    simpa using hk
  have hsplit : wordTokenize (subNonWordSpace s) = [] := by
    rw [wordTokenize]
    apply List.filter_eq_nil_iff.mpr
    intro w hw
    have : w = [] := by
      apply List.eq_nil_iff_forall_not_mem.mpr
      intro c hc
      rcases mem_splitRaw hw c hc with ⟨hmem, hsp⟩
      rw [hsub c hmem] at hsp
      cases hsp
    simp [this]
  rw [tokenize, hsplit]
  rfl

/-- Witness for C9 at the punctuation-and-whitespace text `"?! ."` and the
empty text. -/
theorem tokenize_eq_nil_of_no_word_char_witness :
    tokenize id [63, 33, 32, 46] = [] ∧ tokenize id [] = [] :=
  ⟨tokenize_eq_nil_of_no_word_char id [63, 33, 32, 46] (by decide),
   tokenize_eq_nil_of_no_word_char id [] (by simp)⟩

/-- A batch of independent calls to `tokenize`, one per input message (as the
vectorizer performs them); each call constructs its own lemmatizer and reads
no mutable state, so the batch is the elementwise image of a function. -/
def tokenizeBatch (lem : Text → Text) (inputs : List Text) : List (List Text) :=
  List.map (tokenize lem) inputs

/-- C10: `tokenize` is deterministic and stateless across calls — in any batch
of calls, two calls on equal input strings return equal token sequences. -/
theorem tokenize_deterministic (lem : Text → Text) (inputs : List Text)
    (i j : Nat) (hi : i < inputs.length) (hj : j < inputs.length)
    (h : inputs.get ⟨i, hi⟩ = inputs.get ⟨j, hj⟩) :
    (tokenizeBatch lem inputs).get ⟨i, by simpa [tokenizeBatch] using hi⟩
      = (tokenizeBatch lem inputs).get ⟨j, by simpa [tokenizeBatch] using hj⟩ := by
  simp only [tokenizeBatch, List.get_eq_getElem, List.getElem_map]
  simp only [List.get_eq_getElem] at h
  rw [h]

/-- Witness for C10: two calls on the equal inputs `"a"` and `"a"`. -/
theorem tokenize_deterministic_witness :
    (tokenizeBatch id [[97], [97]]).get ⟨0, by decide⟩
      = (tokenizeBatch id [[97], [97]]).get ⟨1, by decide⟩ :=
  tokenize_deterministic id [[97], [97]] 0 1 (by decide) (by decide) (by decide)

/-! ## `load_data` lemmas -/

theorem getD_set_self {α : Type} (l : List α) (n : Nat) (a d : α) :
    List.getD (List.set l n a) n d = if n < l.length then a else d := by
  induction l generalizing n with
  | nil => simp
  | cons x l ih =>
    cases n with
    | zero => simp
    | succ n => simpa using ih n

theorem getD_set_ne {α : Type} (l : List α) {m n : Nat} (h : m ≠ n) (a d : α) :
    List.getD (List.set l m a) n d = List.getD l n d := by
  rw [List.getD_eq_getElem?_getD, List.getD_eq_getElem?_getD, List.getElem?_set_ne h]

theorem replaceTwoOne_ne_two (c : Cell) : replaceTwoOne c ≠ Cell.i 2 := by
  rw [replaceTwoOne]
  split
  · simp
  · assumption

theorem replaceTwoOne_binary {c : Cell}
    (h : c = Cell.i 0 ∨ c = Cell.i 1 ∨ c = Cell.i 2) :
    replaceTwoOne c = Cell.i 0 ∨ replaceTwoOne c = Cell.i 1 := by
  rcases h with rfl | rfl | rfl <;> simp [replaceTwoOne]

/-- Destructuring of a successful `load_data` call. -/
theorem load_data_eq_some {df : DataFrame} {X : List Cell} {y : DataFrame}
    {names : List String} (h : load_data df = some (X, y, names)) :
    df.col "message" = some X ∧ replaceRelated (df.ilocCols 4 39) = some y ∧
    names = y.colNames := by
  rw [load_data] at h
  rcases hm : df.col "message" with _ | X'
  · rw [hm] at h; cases h
  · rw [hm] at h
    rcases hr : replaceRelated (df.ilocCols 4 39) with _ | y'
    · rw [hr] at h; cases h
    · rw [hr] at h
      injection h with h
      rw [Prod.mk.injEq, Prod.mk.injEq] at h
      obtain ⟨rfl, rfl, rfl⟩ := h
      exact ⟨rfl, rfl, rfl⟩

/-- Shape of a successful `replaceRelated` call. -/
theorem replaceRelated_eq_some {df : DataFrame} {y : DataFrame} {ri : Nat}
    (hri : List.indexOf? "related" df.colNames = some ri)
    (h : replaceRelated df = some y) :
    y = { colNames := df.colNames,
          rows := List.map
            (fun r => List.set r ri (replaceTwoOne (List.getD r ri (Cell.i 0))))
            df.rows } := by
  rw [replaceRelated, hri] at h
  injection h with h
  exact h.symm

/-! ## Claim theorems: `load_data` -/

/-- C1: in the label matrix returned by `load_data`, the `related` column
never contains the value 2; if every `related` value read from the database
slice is in {0,1,2} then every returned `related` value is in {0,1}; and no
column other than `related` is altered. -/
theorem load_data_related_binary (df : DataFrame) (X : List Cell) (y : DataFrame)
    (names : List String) (ri : Nat)
    (hload : load_data df = some (X, y, names))
    (hri : List.indexOf? "related" (df.ilocCols 4 39).colNames = some ri) :
    (∀ r ∈ y.rows, List.getD r ri (Cell.i 0) ≠ Cell.i 2) ∧
    ((∀ r ∈ (df.ilocCols 4 39).rows,
        List.getD r ri (Cell.i 0) = Cell.i 0 ∨ List.getD r ri (Cell.i 0) = Cell.i 1 ∨
          List.getD r ri (Cell.i 0) = Cell.i 2) →
      ∀ r ∈ y.rows,
        List.getD r ri (Cell.i 0) = Cell.i 0 ∨ List.getD r ri (Cell.i 0) = Cell.i 1) ∧
    (∀ k j, j ≠ ri →
      List.getD (List.getD y.rows k []) j (Cell.i 0)
        = List.getD (List.getD (df.ilocCols 4 39).rows k []) j (Cell.i 0)) := by
  obtain ⟨hm, hr, hn⟩ := load_data_eq_some hload
  have hy := replaceRelated_eq_some hri hr
  subst hy
  refine ⟨?_, ?_, ?_⟩
  · intro r hr'
    rcases List.mem_map.mp hr' with ⟨r0, hr0, rfl⟩
    rw [getD_set_self]
    split
    · exact replaceTwoOne_ne_two _
    · simp
  · intro hin r hr'
    rcases List.mem_map.mp hr' with ⟨r0, hr0, rfl⟩
    rw [getD_set_self]
    split
    · exact replaceTwoOne_binary (hin r0 hr0)
    · simp
  · intro k j hj
    rw [List.getD_eq_getElem?_getD (l := List.map _ (df.ilocCols 4 39).rows),
        List.getD_eq_getElem?_getD (l := (df.ilocCols 4 39).rows), List.getElem?_map]
    rcases hk : (df.ilocCols 4 39).rows[k]? with _ | r0
    · rfl
    · exact getD_set_ne r0 (fun h => hj h.symm) _ _

/-- Test table: six columns, `related` first among the sliced label columns,
one row holding the anomalous `related` value 2. -/
def testDf : DataFrame :=
  { colNames := ["id", "message", "original", "genre", "related", "water"],
    rows :=
      [[Cell.i 1, Cell.s [104, 105], Cell.s [], Cell.s [], Cell.i 2, Cell.i 0],
       [Cell.i 2, Cell.s [121, 111], Cell.s [], Cell.s [], Cell.i 1, Cell.i 1]] }

/-- The label matrix `load_data` produces from `testDf`. -/
def testY : DataFrame :=
  { colNames := ["related", "water"],
    rows := [[Cell.i 1, Cell.i 0], [Cell.i 1, Cell.i 1]] }

/-- The message corpus `load_data` produces from `testDf`. -/
def testX : List Cell := [Cell.s [104, 105], Cell.s [121, 111]]

example : load_data testDf = some (testX, testY, ["related", "water"]) := by decide

/-- Witness for C1 at `testDf` (whose first row has `related = 2`): the
replaced cells of both rows, and one untouched `water` cell. -/
theorem load_data_related_binary_witness :
    List.getD [Cell.i 1, Cell.i 0] 0 (Cell.i 0) ≠ Cell.i 2 ∧
    List.getD (List.getD testY.rows 0 []) 1 (Cell.i 0)
      = List.getD (List.getD (testDf.ilocCols 4 39).rows 0 []) 1 (Cell.i 0) :=
  have h := load_data_related_binary testDf testX testY ["related", "water"] 0
    (by decide) (by decide)
  ⟨h.1 [Cell.i 1, Cell.i 0] (by decide), h.2.2 0 1 (by decide)⟩

/-- C5: the category-name list returned by `load_data` is exactly the label
matrix's column-name list — same length, same order. -/
theorem load_data_category_names (df : DataFrame) (X : List Cell) (y : DataFrame)
    (names : List String) (hload : load_data df = some (X, y, names)) :
    names = y.colNames ∧ names.length = y.colNames.length := by
  obtain ⟨-, -, hn⟩ := load_data_eq_some hload
  exact ⟨hn, by rw [hn]⟩

/-- Witness for C5 at `testDf`. -/
theorem load_data_category_names_witness :
    ["related", "water"] = testY.colNames ∧
    (["related", "water"] : List String).length = testY.colNames.length :=
  load_data_category_names testDf testX testY ["related", "water"] (by decide)

/-- C7: the label matrix returned by `load_data` consists of exactly the
columns at offsets 4 through 38 of the table (so 35 columns whenever the
table has at least 39), every non-`related` label cell is the table cell at
the corresponding offset, and the message corpus is exactly the table's
`message` column, unmodified. -/
theorem load_data_fixed_offsets (df : DataFrame) (X : List Cell) (y : DataFrame)
    (names : List String) (ri : Nat)
    (hload : load_data df = some (X, y, names))
    (hri : List.indexOf? "related" (df.ilocCols 4 39).colNames = some ri) :
    y.colNames = List.take 35 (List.drop 4 df.colNames) ∧
    (39 ≤ df.colNames.length → y.colNames.length = 35) ∧
    df.col "message" = some X ∧
    (∀ k j, j ≠ ri →
      List.getD (List.getD y.rows k []) j (Cell.i 0)
        = List.getD (List.take 35 (List.drop 4 (List.getD df.rows k []))) j (Cell.i 0)) := by
  obtain ⟨hm, hr, hn⟩ := load_data_eq_some hload
  have hy := replaceRelated_eq_some hri hr
  subst hy
  refine ⟨rfl, ?_, hm, ?_⟩
  · intro hlen
    simp only [DataFrame.ilocCols, List.length_take, List.length_drop]
    omega
  · intro k j hj
    have hslice : ∀ k, List.getD ((df.ilocCols 4 39).rows) k []
        = List.take 35 (List.drop 4 (List.getD df.rows k [])) := by
      intro k
      rw [DataFrame.ilocCols]
      rw [List.getD_eq_getElem?_getD, List.getD_eq_getElem?_getD, List.getElem?_map]
      rcases hk : df.rows[k]? with _ | r0
      · rfl
      · rfl
    rw [← hslice k]
    rw [List.getD_eq_getElem?_getD (l := List.map _ (df.ilocCols 4 39).rows),
        List.getD_eq_getElem?_getD (l := (df.ilocCols 4 39).rows), List.getElem?_map]
    rcases hk : (df.ilocCols 4 39).rows[k]? with _ | r0
    · rfl
    · exact getD_set_ne r0 (fun h => hj h.symm) _ _

/-- Witness for C7 at `testDf`: the sliced column names, the message column,
and one sliced label cell. -/
theorem load_data_fixed_offsets_witness :
    testY.colNames = List.take 35 (List.drop 4 testDf.colNames) ∧
    testDf.col "message" = some testX ∧
    List.getD (List.getD testY.rows 1 []) 1 (Cell.i 0)
      = List.getD (List.take 35 (List.drop 4 (List.getD testDf.rows 1 []))) 1 (Cell.i 0) :=
  have h := load_data_fixed_offsets testDf testX testY ["related", "water"] 0
    (by decide) (by decide)
  ⟨h.1, h.2.2.1, h.2.2.2 1 1 (by decide)⟩

/-! ## Claim theorems: `main`, `build_model`, `evaluate_model` -/

/-- C4: `main` trains, evaluates and saves a model exactly when `sys.argv`
has length 3 (two positional arguments); for any other argument count it
performs only the usage print, and the exit code is 0 in every case (the
script never signals an error). -/
theorem main_trains_iff_two_args (argv : List String) :
    ((MainEvent.trainModel ∈ mainTrace argv ∧ MainEvent.evaluateModel ∈ mainTrace argv ∧
      MainEvent.saveModel ∈ mainTrace argv) ↔ argv.length = 3) ∧
    (argv.length ≠ 3 → mainTrace argv = [MainEvent.printUsage]) ∧
    mainExitCode argv = 0 := by
  by_cases h : argv.length = 3 <;>
    simp [mainTrace, mainExitCode, h]

/-- Witness for C4 at a one-element argument vector (no positional
arguments): only the usage message, exit code 0. -/
theorem main_trains_iff_two_args_witness :
    mainTrace ["train_classifier.py"] = [MainEvent.printUsage] ∧
    mainExitCode ["train_classifier.py"] = 0 :=
  ⟨(main_trains_iff_two_args ["train_classifier.py"]).2.1 (by decide),
   (main_trains_iff_two_args ["train_classifier.py"]).2.2⟩

/-- C6: the hyperparameter candidate list built by `build_model` is exactly
the cartesian product of the two n-gram ranges, three maximum document
frequencies and two idf-weighting flags — these 12 combinations, each
occurring exactly once. -/
theorem build_model_grid :
    build_model.paramCandidates =
      [⟨(1, 1), 1/10, true⟩, ⟨(1, 1), 1/10, false⟩,
       ⟨(1, 1), 1/2, true⟩, ⟨(1, 1), 1/2, false⟩,
       ⟨(1, 1), 3/4, true⟩, ⟨(1, 1), 3/4, false⟩,
       ⟨(1, 2), 1/10, true⟩, ⟨(1, 2), 1/10, false⟩,
       ⟨(1, 2), 1/2, true⟩, ⟨(1, 2), 1/2, false⟩,
       ⟨(1, 2), 3/4, true⟩, ⟨(1, 2), 3/4, false⟩] ∧
    build_model.paramCandidates.length = 12 ∧
    build_model.paramCandidates.Nodup := by
  refine ⟨rfl, rfl, ?_⟩
  norm_num [build_model, ngramRangeValues, maxDfValues, useIdfValues,
    List.nodup_cons, List.mem_cons, ParamComb.mk.injEq, Prod.mk.injEq]
  decide

theorem countPairs_pos_eq_zero {yt yp : List Int} (b : Int)
    (h : List.count 1 yt = 0) : countPairs yt yp 1 b = 0 := by
  rw [countPairs, List.count_eq_zero]
  intro hmem
  exact (List.count_eq_zero.mp h) (List.of_mem_zip hmem).1

/-- C8: `evaluate_model` returns no structured value (only `None`); the
printed table has exactly one row per column of `Y_test`, keeping the column
names in order, and each row is the triple precision/recall/F1 (binary,
positive class 1) of that test column against the equally-named predicted
column alone; a test column with no positive example is not intercepted and
its recall and F1 take the library's zero-division value 0. -/
theorem evaluate_model_per_category (predict : List Cell → List (List Int))
    (Xtest : List Cell) (Ytest : IntFrame) (categoryNames : List String) :
    (evaluate_model predict Xtest Ytest categoryNames).1 = () ∧
    (evaluate_model predict Xtest Ytest categoryNames).2
      = List.map (fun c =>
          (c.1,
           [precision_score c.2 ((predFrame (predict Xtest) categoryNames).col c.1),
            recall_score c.2 ((predFrame (predict Xtest) categoryNames).col c.1),
            f1_score c.2 ((predFrame (predict Xtest) categoryNames).col c.1)]))
          Ytest.cols ∧
    List.map Prod.fst (evaluate_model predict Xtest Ytest categoryNames).2
      = List.map Prod.fst Ytest.cols ∧
    (∀ name yt, (name, yt) ∈ Ytest.cols → List.count 1 yt = 0 →
      recall_score yt ((predFrame (predict Xtest) categoryNames).col name) = 0 ∧
      f1_score yt ((predFrame (predict Xtest) categoryNames).col name) = 0) := by
  refine ⟨rfl, rfl, ?_, ?_⟩
  · rw [evaluate_model]
    rw [List.map_map]
    rfl
  · intro name yt hmem hcount
    constructor
    · rw [recall_score]
      simp only [countPairs_pos_eq_zero 1 hcount, countPairs_pos_eq_zero 0 hcount]
      norm_num
    · rw [f1_score]
      simp only [countPairs_pos_eq_zero 1 hcount, countPairs_pos_eq_zero 0 hcount]
      split
      · rfl
      · norm_num

/-- Witness for C8: two test messages, categories `related` (all positive)
and `water` (no positive example) — the `water` row takes the zero-division
values. -/
theorem evaluate_model_per_category_witness :
    List.map Prod.fst
        (evaluate_model (fun _ => [[1, 0], [0, 1]]) [Cell.s [97], Cell.s [98]]
          (IntFrame.mk [("related", [1, 1]), ("water", [0, 0])])
          ["related", "water"]).2
      = List.map Prod.fst (IntFrame.mk [("related", [1, 1]), ("water", [0, 0])]).cols ∧
    recall_score [0, 0]
        ((predFrame ((fun (_ : List Cell) => [[1, 0], [0, 1]]) [Cell.s [97], Cell.s [98]])
          ["related", "water"]).col "water") = 0 ∧
    f1_score [0, 0]
        ((predFrame ((fun (_ : List Cell) => [[1, 0], [0, 1]]) [Cell.s [97], Cell.s [98]])
          ["related", "water"]).col "water") = 0 :=
  have h := evaluate_model_per_category (fun _ => [[1, 0], [0, 1]])
    [Cell.s [97], Cell.s [98]]
    (IntFrame.mk [("related", [1, 1]), ("water", [0, 0])]) ["related", "water"]
  have hz := h.2.2.2 "water" [0, 0] (by decide) (by decide)
  ⟨h.2.2.1, hz.1, hz.2⟩
